import Mathlib

/-!
Shallow embedding of the markup-transcoding engine found in
`maid_in_abyss/exts/mihoyo/wiki/interface/display.py`.

The wiki-grammar scanner the source delegates to (an external
MediaWiki-syntax library) is not part of the repository; following the
design document it is modelled as data: a `ParseResult` holds the four
construct sequences the engine consumes, each with its absolute span into
the input and the sub-spans the engine reads.  Everything else is
translated directly from the Python source: `replace` is the slice
assignment primitive, the four passes mirror the four loops of
`parse_wiki_str`, and compaction is the final join.  A Python `KeyError`
(raised by `tag.attrs["class"]` when the attribute is absent) is modelled
by `Option`: a `none` result means the call raised.
-/

namespace Display

/-- The `TAG_MAPPING` dictionary from the source: tag identifier to replacement token.
`dict.get` on a missing key returns `None`, modelled as `none`. -/
def TAG_MAPPING : String → Option String
  | "inc" => some "**"
  | "increase" => some "**"
  | "color-blue" => some "**"
  | "color-orange" => some "**"
  | "br" => some "\n"
  | _ => none

/-- The `TEMPLATE_MAPPING` dictionary from the source: template identifier to token. -/
def TEMPLATE_MAPPING : String → Option String
  | "star" => some "★"
  | _ => none

/-- Modelled from the spec: the fixed base address of the wiki
(`api.WIKI_BASE`, configuration living outside this file tree); the design
document writes it `<base>/` in its link example. -/
def WIKI_BASE : String := "<base>/"

/-- UTF-8 encoding of one code point, as a list of byte values. -/
def utf8Bytes (c : Char) : List Nat :=
  let n := c.toNat
  if n < 128 then [n]
  else if n < 2048 then [192 + n / 64, 128 + n % 64]
  else if n < 65536 then [224 + n / 4096, 128 + n / 64 % 64, 128 + n % 64]
  else [240 + n / 262144, 128 + n / 4096 % 64, 128 + n / 64 % 64, 128 + n % 64]

/-- Bytes `urllib.parse.quote` keeps verbatim under its default
`safe = "/"`: ASCII letters, digits, underscore, dot, hyphen, tilde, slash. -/
def quoteSafe (n : Nat) : Bool :=
  (65 ≤ n && n ≤ 90) || (97 ≤ n && n ≤ 122) || (48 ≤ n && n ≤ 57)
    || n == 95 || n == 46 || n == 45 || n == 126 || n == 47

/-- Upper-case hexadecimal digit for a value below 16. -/
def hexDigit (n : Nat) : Char :=
  if n < 10 then Char.ofNat (48 + n) else Char.ofNat (55 + n)

/-- Percent-encoding of one byte, as in `urllib.parse.quote`. -/
def quoteByte (n : Nat) : List Char :=
  if quoteSafe n then [Char.ofNat n]
  else [Char.ofNat 37, hexDigit (n / 16), hexDigit (n % 16)]

/-- Model of `urllib.parse.quote` with its default `safe = "/"`:
percent-encode the UTF-8 bytes of the string, keeping safe bytes. -/
def quote (s : String) : String :=
  String.mk (((s.data.map utf8Bytes).flatten.map quoteByte).flatten)

/-- The `urlify` function from the source: replace every space by an underscore
(Python `str.replace` with a one-character pattern acts per character),
then percent-encode. -/
def urlify (s : String) : String :=
  quote (String.mk (s.data.map (fun c => if c.toNat == 32 then Char.ofNat 95 else c)))

/-- The `wiki_link` function from the source: the base address directly followed by the
urlified page name. -/
def wiki_link (name : String) : String :=
  WIKI_BASE ++ urlify name

/-- Python f-string interpolation of an optional string: `None` prints as
the four characters `None`. -/
def pyStr : Option String → String
  | none => "None"
  | some s => s

/-- The `discord_link` function from the source: the url defaults to
`wiki_link display` only when `link is None and from_display is True`;
the result is the f-string `[display](link)`. -/
def discord_link (display : String) (link : Option String) (from_display : Bool) : String :=
  let link :=
    match link, from_display with
    | none, true => some (wiki_link display)
    | l, _ => l
  "[" ++ display ++ "](" ++ pyStr link ++ ")"

/-- Modelled from the spec: an emphasis construct reported by the Markup
Parser (`wt.get_bolds_and_italics()`): absolute outer span `[spanL, spanH)`
and the span of regex group 1 (the delimited text) relative to `spanL`. -/
structure Emphasis where
  spanL : Nat
  spanH : Nat
  matchL : Nat
  matchH : Nat
  isBold : Bool

/-- Modelled from the spec: a tag construct reported by the Markup Parser
(`wt.get_tags()`): absolute outer span, the relative span of the regex
group `contents` (`none` models `match_l = -1`, a self-closing tag), the
value of the `class` attribute when the tag has one (`tag.attrs`), and
the tag name. -/
structure Tag where
  spanL : Nat
  spanH : Nat
  contents : Option (Nat × Nat)
  attrsClass : Option String
  name : String

/-- Modelled from the spec: a link construct reported by the Markup Parser
(`wt.wikilinks`): absolute outer span, whether the link body contains
another link (`wikilink.wikilinks` non-empty), the relative span of regex
group 4 (the display text; `none` models `match_l = -1`), and the target. -/
structure Wikilink where
  spanL : Nat
  spanH : Nat
  hasNested : Bool
  textSpan : Option (Nat × Nat)
  target : String

/-- Modelled from the spec: a template construct reported by the Markup
Parser (`wt.templates`): absolute outer span, whether its argument region
contains another template (`template.templates` non-empty), and its name. -/
structure Template where
  spanL : Nat
  spanH : Nat
  hasNested : Bool
  name : String

/-- Modelled from the spec: everything the engine reads from the Markup
Parser, in the iteration order of the four loops. -/
structure ParseResult where
  emphases : List Emphasis
  tags : List Tag
  wikilinks : List Wikilink
  templates : List Template

/-- The `replace` helper nested in `parse_wiki_str`: the Python slice
assignment `lst[begin:end] = [repl] + [None] * (end - begin - 1)`.
For `end ≤ begin` the multiplicand is non-positive so only `[repl]` is
spliced in; Nat subtraction models that, and `max b e` models that an
empty slice inserts at `begin`. -/
def replace (lst : List (Option String)) (b e : Nat) (repl : Option String) :
    List (Option String) :=
  lst.take b ++ ((repl :: List.replicate (e - b - 1) none) ++ lst.drop (max b e))

/-- The buffer `list_str = list(string)`: one cell per character. -/
def initBuffer (s : String) : List (Option String) :=
  s.data.map (fun c => some (String.mk [c]))

/-- One iteration of the bold/italic loop of `parse_wiki_str`. -/
def emphasisStep (lst : List (Option String)) (em : Emphasis) : List (Option String) :=
  let repl := if em.isBold then some "**" else some "_"
  let lst1 := replace lst em.spanL (em.spanL + em.matchL) repl
  replace lst1 (em.spanL + em.matchH) em.spanH repl

/-- One iteration of the tag loop of `parse_wiki_str`.  A non-self-closing
tag reads `tag.attrs["class"]`, which raises `KeyError` (modelled `none`)
when the tag has no class attribute; a self-closing tag is replaced across
its whole span by the token mapped from its name. -/
def tagStep (lst : List (Option String)) (tag : Tag) : Option (List (Option String)) :=
  match tag.contents with
  | some (mL, mH) =>
    match tag.attrsClass with
    | none => none
    | some cls =>
      let repl := TAG_MAPPING cls
      let lst1 := replace lst tag.spanL (tag.spanL + mL) repl
      some (replace lst1 (tag.spanL + mH) tag.spanH repl)
  | none => some (replace lst tag.spanL tag.spanH (TAG_MAPPING tag.name))

/-- One iteration of the wikilink loop of `parse_wiki_str`. -/
def linkStep (lst : List (Option String)) (wl : Wikilink) : List (Option String) :=
  if wl.hasNested then
    replace lst wl.spanL wl.spanH (some "<placeholder1>")
  else
    match wl.textSpan with
    | some (mL, mH) =>
      let lst1 := replace lst wl.spanL (wl.spanL + mL) (some "<placeholder2>")
      replace lst1 (wl.spanL + mH) wl.spanH none
    | none => replace lst wl.spanL wl.spanH (some (discord_link wl.target none true))

/-- One iteration of the template loop of `parse_wiki_str`: a template
containing a nested template is skipped, otherwise its whole span is
replaced by the token mapped from its name. -/
def templateStep (lst : List (Option String)) (tp : Template) : List (Option String) :=
  if tp.hasNested then lst
  else replace lst tp.spanL tp.spanH (TEMPLATE_MAPPING tp.name)

/-- The four passes of `parse_wiki_str` run over the buffer, before the
final join; `none` models the `KeyError` escaping the call. -/
def parse_wiki_str_buf (pr : ParseResult) (s : String) : Option (List (Option String)) :=
  match pr.tags.foldlM tagStep (pr.emphases.foldl emphasisStep (initBuffer s)) with
  | none => none
  | some lst2 => some (pr.templates.foldl templateStep (pr.wikilinks.foldl linkStep lst2))

/-- The `parse_wiki_str` function from the source, parameterised by the Markup Parser
output: run the four passes, then compact with
`"".join(c for c in list_str if c is not None)`. -/
def parse_wiki_str (pr : ParseResult) (s : String) : Option String :=
  match parse_wiki_str_buf pr s with
  | none => none
  | some lst => some (String.join (lst.filterMap id))

/-- Three ASCII apostrophes, the bold delimiter of the wiki dialect. -/
def SQ3 : String := String.mk [Char.ofNat 39, Char.ofNat 39, Char.ofNat 39]

/-- Two ASCII apostrophes, the italic delimiter of the wiki dialect. -/
def SQ2 : String := String.mk [Char.ofNat 39, Char.ofNat 39]

/-- One ASCII apostrophe. -/
def SQ1 : String := String.mk [Char.ofNat 39]

/-- The design document's bold example input, three apostrophes around
`bold text`. -/
def boldStr : String := SQ3 ++ "bold text" ++ SQ3

/-- Modelled from the spec: the Markup Parser output on `boldStr` — one
Bold construct spanning the whole input, group 1 covering `bold text`. -/
def prBold : ParseResult := ⟨[⟨0, 15, 3, 12, true⟩], [], [], []⟩

/-- The design document's mixed-nesting example input: a `b` tag with
class `inc` around an italic run around `text`. -/
def mixedStr : String :=
  "<b class=" ++ SQ1 ++ "inc" ++ SQ1 ++ ">" ++ SQ2 ++ "text" ++ SQ2 ++ "</b>"

/-- Modelled from the spec: the Markup Parser output on `mixedStr` — one
Italic construct at the absolute span of the apostrophe run with group 1
covering `text`, and one non-self-closing `b` tag with class `inc`
spanning the whole input, contents covering the apostrophe run. -/
def prMixed : ParseResult :=
  ⟨[⟨15, 23, 2, 6, false⟩], [⟨0, 27, some (15, 23), some "inc", "b"⟩], [], []⟩

/-- The design document's nested-template example input
`{{outer|{{star}}}}`. -/
def outerStr : String := "\x7b\x7bouter|\x7b\x7bstar\x7d\x7d\x7d\x7d"

/-- Modelled from the spec: the Markup Parser output on `outerStr` — the
outer template (which contains a nested template) and the inner `star`
template (which contains none). -/
def prOuter : ParseResult := ⟨[], [], [], [⟨0, 18, true, "outer"⟩, ⟨8, 16, false, "star"⟩]⟩

/-- The design document's plain-link example input `[[Kiana]]`. -/
def kianaStr : String := "[[Kiana]]"

/-- Modelled from the spec: the Markup Parser output on `kianaStr` — one
link with no nested link and no display text, target `Kiana`. -/
def prKiana : ParseResult := ⟨[], [], [⟨0, 9, false, none, "Kiana"⟩], []⟩

/-- The design document's unmapped-template example input
`{{unmapped}}`. -/
def unmappedStr : String := "\x7b\x7bunmapped\x7d\x7d"

/-- Modelled from the spec: the Markup Parser output on `unmappedStr` —
one template, no nesting, name `unmapped` (absent from
`TEMPLATE_MAPPING`). -/
def prUnmapped : ParseResult := ⟨[], [], [], [⟨0, 12, false, "unmapped"⟩]⟩

/-- A self-closing tag whose name is mapped: `<br/>`. -/
def brStr : String := "<br/>"

/-- Modelled from the spec: the Markup Parser output on `brStr` — one
self-closing tag (no contents group), no attributes, name `br`. -/
def prBr : ParseResult := ⟨[], [⟨0, 5, none, none, "br"⟩], [], []⟩

/-- A non-self-closing tag with no class attribute: `<b>x</b>`. -/
def bPlainStr : String := "<b>x</b>"

/-- Modelled from the spec: the Markup Parser output on `bPlainStr` — one
non-self-closing tag whose attribute dictionary has no `class` key. -/
def prBPlain : ParseResult := ⟨[], [⟨0, 8, some (3, 4), none, "b"⟩], [], []⟩

/-- A template with unmapped name enclosing a nested template:
`{{u|{{star}}}}`. -/
def nestedUnmappedStr : String := "\x7b\x7bu|\x7b\x7bstar\x7d\x7d\x7d\x7d"

/-- Modelled from the spec: the Markup Parser output on
`nestedUnmappedStr` — the outer unmapped template (with a nested one) and
the inner `star` template. -/
def prNestedUnmapped : ParseResult :=
  ⟨[], [], [], [⟨0, 14, true, "u"⟩, ⟨4, 12, false, "star"⟩]⟩

/-- A self-closing tag whose name is unmapped: `<hr/>`. -/
def hrStr : String := "<hr/>"

/-- Modelled from the spec: the Markup Parser output on `hrStr` — one
self-closing tag, name `hr` (absent from `TAG_MAPPING`). -/
def prHr : ParseResult := ⟨[], [⟨0, 5, none, none, "hr"⟩], [], []⟩

/-- A non-self-closing tag with an unmapped class: `<span class="unk">text</span>`. -/
def spanUnkStr : String := "<span class=\"unk\">text</span>"

/-- Modelled from the spec: the Markup Parser output on `spanUnkStr` — one
non-self-closing tag, class `unk` (absent from `TAG_MAPPING`), contents
covering `text`. -/
def prSpanUnk : ParseResult := ⟨[], [⟨0, 29, some (18, 22), some "unk", "span"⟩], [], []⟩

/-- A lone mapped template: `{{star}}`. -/
def starStr : String := "\x7b\x7bstar\x7d\x7d"

/-- Modelled from the spec: the Markup Parser output on `starStr` — one
template, no nesting, name `star`. -/
def prStar : ParseResult := ⟨[], [], [], [⟨0, 8, false, "star"⟩]⟩

theorem length_replace {lst : List (Option String)} {b e : Nat} (r : Option String)
    (hbe : b < e) (hlen : e ≤ lst.length) :
    (replace lst b e r).length = lst.length := by
  simp only [replace, List.length_append, List.length_take, List.length_cons,
    List.length_replicate, List.length_drop]
  omega

theorem replace_getElem?_left {lst : List (Option String)} {b e i : Nat} (r : Option String)
    (hib : i < b) (hb : b ≤ lst.length) :
    (replace lst b e r)[i]? = lst[i]? := by
  unfold replace
  have h1 : i < (lst.take b).length := by
    simp only [List.length_take]
    omega
  rw [List.getElem?_append_left h1, List.getElem?_take_of_lt hib]

theorem replace_getElem?_head {lst : List (Option String)} {b e : Nat} (r : Option String)
    (hbe : b < e) (hlen : e ≤ lst.length) :
    (replace lst b e r)[b]? = some r := by
  unfold replace
  have ht : (lst.take b).length = b := by
    simp only [List.length_take]
    omega
  rw [List.getElem?_append_right (by omega : (lst.take b).length ≤ b), ht]
  simp

theorem replace_getElem?_mid {lst : List (Option String)} {b e i : Nat} (r : Option String)
    (hbi : b < i) (hie : i < e) (hlen : e ≤ lst.length) :
    (replace lst b e r)[i]? = some none := by
  unfold replace
  have ht : (lst.take b).length = b := by
    simp only [List.length_take]
    omega
  rw [List.getElem?_append_right (by omega : (lst.take b).length ≤ i), ht]
  have h2 : i - b = (i - b - 1) + 1 := by omega
  rw [h2]
  have h3 : (i - b - 1) + 1 < (r :: List.replicate (e - b - 1) (none : Option String)).length := by
    simp only [List.length_cons, List.length_replicate]
    omega
  rw [List.getElem?_append_left h3, List.getElem?_cons_succ]
  exact List.getElem?_replicate_of_lt (by omega)

theorem replace_getElem?_right {lst : List (Option String)} {b e i : Nat} (r : Option String)
    (hbe : b < e) (hei : e ≤ i) (hlen : e ≤ lst.length) :
    (replace lst b e r)[i]? = lst[i]? := by
  unfold replace
  have ht : (lst.take b).length = b := by
    simp only [List.length_take]
    omega
  rw [List.getElem?_append_right (by omega : (lst.take b).length ≤ i), ht]
  have hm : (r :: List.replicate (e - b - 1) (none : Option String)).length = e - b := by
    simp only [List.length_cons, List.length_replicate]
    omega
  rw [List.getElem?_append_right (by omega : (r :: List.replicate (e - b - 1) (none : Option String)).length ≤ i - b), hm]
  have hmax : max b e = e := by omega
  rw [hmax, List.getElem?_drop]
  congr 1
  omega

/-- The overlay shape the design document ascribes to a boundary rewrite:
the token heads sit at the first offset of each delimiter region, the rest
of both delimiter regions is tombstoned, and the content span and
everything outside the outer span read back unchanged. -/
def BoundaryRewrites (lst out : List (Option String)) (L l h H : Nat)
    (tok : Option String) : Prop :=
  out.length = lst.length ∧
  out[L]? = some tok ∧
  (∀ i, L < i → i < l → out[i]? = some none) ∧
  (∀ i, l ≤ i → i < h → out[i]? = lst[i]?) ∧
  out[h]? = some tok ∧
  (∀ i, h < i → i < H → out[i]? = some none) ∧
  (∀ i, i < L → out[i]? = lst[i]?) ∧
  (∀ i, H ≤ i → out[i]? = lst[i]?)

/-- The two `replace` calls a boundary-rewriting pass iteration makes. -/
def boundaryWrite (lst : List (Option String)) (L l h H : Nat)
    (tok : Option String) : List (Option String) :=
  replace (replace lst L l tok) h H tok

theorem boundaryWrite_spec (lst : List (Option String)) (tok : Option String)
    {L l h H : Nat} (h1 : L < l) (h2 : l ≤ h) (h3 : h < H) (h4 : H ≤ lst.length) :
    BoundaryRewrites lst (boundaryWrite lst L l h H tok) L l h H tok := by
  have hlA : l ≤ lst.length := by omega
  have lenA : (replace lst L l tok).length = lst.length := length_replace tok h1 hlA
  have hHA : H ≤ (replace lst L l tok).length := by omega
  refine ⟨?_, ?_, ?_, ?_, ?_, ?_, ?_, ?_⟩
  · rw [boundaryWrite, length_replace tok h3 hHA, lenA]
  · rw [boundaryWrite, replace_getElem?_left tok (by omega) (by omega)]
    exact replace_getElem?_head tok h1 hlA
  · intro i hLi hil
    rw [boundaryWrite, replace_getElem?_left tok (by omega) (by omega)]
    exact replace_getElem?_mid tok hLi hil hlA
  · intro i hli hih
    rw [boundaryWrite, replace_getElem?_left tok (by omega) (by omega)]
    exact replace_getElem?_right tok h1 hli hlA
  · rw [boundaryWrite]
    exact replace_getElem?_head tok h3 hHA
  · intro i hhi hiH
    rw [boundaryWrite]
    exact replace_getElem?_mid tok hhi hiH hHA
  · intro i hiL
    rw [boundaryWrite, replace_getElem?_left tok (by omega) (by omega)]
    exact replace_getElem?_left tok hiL (by omega)
  · intro i hHi
    rw [boundaryWrite, replace_getElem?_right tok h3 hHi hHA]
    exact replace_getElem?_right tok h1 (by omega) hlA

/-- Well-formedness of an emphasis construct over an input of `n`
characters, as the design document describes parser output: non-empty
delimiter runs on both sides, group 1 inside the outer span, span within
the input. -/
def emWF (n : Nat) (em : Emphasis) : Bool :=
  decide (0 < em.matchL) && decide (em.matchL ≤ em.matchH)
    && decide (em.spanL + em.matchH < em.spanH) && decide (em.spanH ≤ n)

/-- Well-formedness of a tag construct: a non-self-closing tag has a
non-empty opening delimiter and its contents group inside the outer span;
any tag's span lies within the input. -/
def tagWF (n : Nat) (tag : Tag) : Bool :=
  (match tag.contents with
    | some (mL, mH) =>
      decide (0 < mL) && decide (mL ≤ mH) && decide (tag.spanL + mH < tag.spanH)
    | none => decide (tag.spanL < tag.spanH))
    && decide (tag.spanH ≤ n)

/-- Well-formedness of a link construct, in the same sense. -/
def linkWF (n : Nat) (wl : Wikilink) : Bool :=
  (if wl.hasNested then decide (wl.spanL < wl.spanH)
    else match wl.textSpan with
      | some (mL, mH) =>
        decide (0 < mL) && decide (mL ≤ mH) && decide (wl.spanL + mH < wl.spanH)
      | none => decide (wl.spanL < wl.spanH))
    && decide (wl.spanH ≤ n)

/-- Well-formedness of a template construct: a template the pass rewrites
has a non-empty span within the input. -/
def tmplWF (n : Nat) (tp : Template) : Bool :=
  tp.hasNested || (decide (tp.spanL < tp.spanH) && decide (tp.spanH ≤ n))

/-- Well-formedness of a whole parser output over `n` input characters. -/
def prWF (pr : ParseResult) (n : Nat) : Bool :=
  pr.emphases.all (emWF n) && pr.tags.all (tagWF n)
    && pr.wikilinks.all (linkWF n) && pr.templates.all (tmplWF n)

/-- The token an emphasis iteration writes. -/
def emTok (em : Emphasis) : Option String :=
  if em.isBold then some "**" else some "_"

/-- The token a tag iteration writes (when it does not raise). -/
def tagTok (tag : Tag) : Option String :=
  match tag.contents, tag.attrsClass with
  | some _, some cls => TAG_MAPPING cls
  | some _, none => none
  | none, _ => TAG_MAPPING tag.name

/-- The head token a link iteration writes. -/
def linkTok (wl : Wikilink) : Option String :=
  if wl.hasNested then some "<placeholder1>"
  else
    match wl.textSpan with
    | some _ => some "<placeholder2>"
    | none => some (discord_link wl.target none true)

/-- The token a template iteration writes (when it writes). -/
def tmplTok (tp : Template) : Option String :=
  TEMPLATE_MAPPING tp.name

/-- All replacement tokens the four passes can write for a given parser
output. -/
def writtenTokens (pr : ParseResult) : List (Option String) :=
  pr.emphases.map emTok ++ pr.tags.map tagTok
    ++ pr.wikilinks.map linkTok ++ pr.templates.map tmplTok

/-- The cell the buffer starts with at offset `i`: the single original
character, when the offset is within the input. -/
def origCell (cs : List Char) (i : Nat) : Option String :=
  (cs[i]?).map (fun ch => String.mk [ch])

/-- A buffer cell is sound: it still holds the original character of its
offset, or a tombstone, or one of the pass-written replacement tokens. -/
def CellOk (cs : List Char) (toks : List (Option String)) (i : Nat)
    (c : Option String) : Prop :=
  c = origCell cs i ∨ c = none ∨ c ∈ toks

/-- Buffer soundness: one cell per original offset, every cell sound. -/
def BufOk (cs : List Char) (toks : List (Option String))
    (lst : List (Option String)) : Prop :=
  lst.length = cs.length ∧ ∀ i c, lst[i]? = some c → CellOk cs toks i c

theorem replace_BufOk {cs : List Char} {toks lst : List (Option String)}
    {b e : Nat} {r : Option String} (hok : BufOk cs toks lst)
    (hbe : b < e) (hlen : e ≤ lst.length) (hr : r = none ∨ r ∈ toks) :
    BufOk cs toks (replace lst b e r) := by
  obtain ⟨hlenok, hcell⟩ := hok
  refine ⟨by rw [length_replace r hbe hlen, hlenok], ?_⟩
  intro i c hc
  rcases Nat.lt_or_ge i b with hib | hbi
  · rw [replace_getElem?_left r hib (by omega)] at hc
    exact hcell i c hc
  · rcases Nat.lt_or_ge i e with hie | hei
    · rcases Nat.eq_or_lt_of_le hbi with hbeq | hbi
      · rw [← hbeq, replace_getElem?_head r hbe hlen] at hc
        cases hc
        rcases hr with h | h
        · exact Or.inr (Or.inl h)
        · exact Or.inr (Or.inr h)
      · rw [replace_getElem?_mid r hbi hie hlen] at hc
        cases hc
        exact Or.inr (Or.inl rfl)
    · rw [replace_getElem?_right r hbe hei hlen] at hc
      exact hcell i c hc

theorem initBuffer_BufOk (s : String) (toks : List (Option String)) :
    BufOk s.data toks (initBuffer s) := by
  refine ⟨by simp [initBuffer], ?_⟩
  intro i c hc
  simp only [initBuffer, List.getElem?_map] at hc
  cases hcs : s.data[i]? with
  | none => rw [hcs] at hc; simp at hc
  | some ch =>
    rw [hcs] at hc
    simp only [Option.map_some', Option.some_inj] at hc
    exact Or.inl (by rw [← hc, origCell, hcs, Option.map_some'])

theorem emphasisStep_BufOk {cs : List Char} {toks lst : List (Option String)}
    {em : Emphasis} (hok : BufOk cs toks lst) (hwf : emWF cs.length em = true)
    (htok : emTok em ∈ toks) : BufOk cs toks (emphasisStep lst em) := by
  simp only [emWF, Bool.and_eq_true, decide_eq_true_eq] at hwf
  obtain ⟨⟨⟨h1, h2⟩, h3⟩, h4⟩ := hwf
  have hb1 : BufOk cs toks (replace lst em.spanL (em.spanL + em.matchL) (emTok em)) :=
    replace_BufOk hok (by omega) (by rw [hok.1]; omega) (Or.inr htok)
  have hb2 : BufOk cs toks
      (replace (replace lst em.spanL (em.spanL + em.matchL) (emTok em))
        (em.spanL + em.matchH) em.spanH (emTok em)) :=
    replace_BufOk hb1 (by omega) (by rw [hb1.1]; omega) (Or.inr htok)
  exact hb2

theorem tagStep_BufOk {cs : List Char} {toks lst out : List (Option String)}
    {tag : Tag} (hok : BufOk cs toks lst) (hwf : tagWF cs.length tag = true)
    (htok : tagTok tag ∈ toks) (hstep : tagStep lst tag = some out) :
    BufOk cs toks out := by
  rcases tag with ⟨sL, sH, co, ac, nm⟩
  rcases co with _ | ⟨mL, mH⟩
  · simp only [tagStep, Option.some_inj] at hstep
    simp only [tagWF, Bool.and_eq_true, decide_eq_true_eq] at hwf
    simp only [tagTok] at htok
    subst hstep
    exact replace_BufOk hok (by omega) (by rw [hok.1]; omega) (Or.inr htok)
  · rcases ac with _ | cls
    · simp only [tagStep] at hstep
      exact Option.noConfusion hstep
    · simp only [tagStep, Option.some_inj] at hstep
      simp only [tagWF, Bool.and_eq_true, decide_eq_true_eq] at hwf
      obtain ⟨⟨⟨h1, h2⟩, h3⟩, h4⟩ := hwf
      simp only [tagTok] at htok
      subst hstep
      have hb1 : BufOk cs toks (replace lst sL (sL + mL) (TAG_MAPPING cls)) :=
        replace_BufOk hok (by omega) (by rw [hok.1]; omega) (Or.inr htok)
      exact replace_BufOk hb1 (by omega) (by rw [hb1.1]; omega) (Or.inr htok)

theorem linkStep_BufOk {cs : List Char} {toks lst : List (Option String)}
    {wl : Wikilink} (hok : BufOk cs toks lst) (hwf : linkWF cs.length wl = true)
    (htok : linkTok wl ∈ toks) : BufOk cs toks (linkStep lst wl) := by
  rcases wl with ⟨sL, sH, nested, ts, tgt⟩
  cases nested
  · rcases ts with _ | ⟨mL, mH⟩
    · simp only [linkWF, Bool.and_eq_true, decide_eq_true_eq, if_neg Bool.false_ne_true,
        Bool.false_eq_true, if_false] at hwf
      simp only [linkTok, Bool.false_eq_true, if_false] at htok
      simp only [linkStep, Bool.false_eq_true, if_false]
      exact replace_BufOk hok (by omega) (by rw [hok.1]; omega) (Or.inr htok)
    · simp only [linkWF, Bool.and_eq_true, decide_eq_true_eq, Bool.false_eq_true,
        if_false] at hwf
      obtain ⟨⟨⟨h1, h2⟩, h3⟩, h4⟩ := hwf
      simp only [linkTok, Bool.false_eq_true, if_false] at htok
      simp only [linkStep, Bool.false_eq_true, if_false]
      have hb1 : BufOk cs toks (replace lst sL (sL + mL) (some "<placeholder2>")) :=
        replace_BufOk hok (by omega) (by rw [hok.1]; omega) (Or.inr htok)
      exact replace_BufOk hb1 (by omega) (by rw [hb1.1]; omega) (Or.inl rfl)
  · simp only [linkWF, Bool.and_eq_true, decide_eq_true_eq, if_true] at hwf
    simp only [linkTok, if_true] at htok
    simp only [linkStep, if_true]
    exact replace_BufOk hok (by omega) (by rw [hok.1]; omega) (Or.inr htok)

theorem templateStep_BufOk {cs : List Char} {toks lst : List (Option String)}
    {tp : Template} (hok : BufOk cs toks lst) (hwf : tmplWF cs.length tp = true)
    (htok : tmplTok tp ∈ toks) : BufOk cs toks (templateStep lst tp) := by
  rcases tp with ⟨sL, sH, nested, nm⟩
  cases nested
  · simp only [tmplWF, Bool.false_or, Bool.and_eq_true, decide_eq_true_eq] at hwf
    simp only [tmplTok] at htok
    simp only [templateStep, Bool.false_eq_true, if_false]
    exact replace_BufOk hok (by omega) (by rw [hok.1]; omega) (Or.inr htok)
  · simp only [templateStep, if_true]
    exact hok

theorem foldl_BufOk {α : Type} {cs : List Char} {toks : List (Option String)}
    (step : List (Option String) → α → List (Option String)) (P : α → Prop)
    (hstep : ∀ lst x, P x → BufOk cs toks lst → BufOk cs toks (step lst x)) :
    ∀ (xs : List α) (lst : List (Option String)), (∀ x ∈ xs, P x) →
      BufOk cs toks lst → BufOk cs toks (xs.foldl step lst) := by
  intro xs
  induction xs with
  | nil => intro lst _ h; simpa using h
  | cons x xs ih =>
    intro lst hP h
    simp only [List.foldl_cons]
    exact ih _ (fun y hy => hP y (List.mem_cons_of_mem _ hy))
      (hstep lst x (hP x (List.mem_cons_self _ _)) h)

theorem foldlM_tag_BufOk {cs : List Char} {toks : List (Option String)} :
    ∀ (tags : List Tag) (lst out : List (Option String)),
      (∀ t ∈ tags, tagWF cs.length t = true ∧ tagTok t ∈ toks) →
      BufOk cs toks lst → tags.foldlM tagStep lst = some out →
      BufOk cs toks out := by
  intro tags
  induction tags with
  | nil =>
    intro lst out _ h hfold
    simp only [List.foldlM_nil] at hfold
    cases hfold
    exact h
  | cons t ts ih =>
    intro lst out hP h hfold
    simp only [List.foldlM_cons] at hfold
    cases hstep : tagStep lst t with
    | none => rw [hstep] at hfold; simp at hfold
    | some lst1 =>
      rw [hstep] at hfold
      simp only [Option.bind_eq_bind, Option.some_bind] at hfold
      exact ih lst1 out (fun y hy => hP y (List.mem_cons_of_mem _ hy))
        (tagStep_BufOk h (hP t (List.mem_cons_self _ _)).1
          (hP t (List.mem_cons_self _ _)).2 hstep) hfold

theorem tagStep_isSome (lst : List (Option String)) {t : Tag}
    (h : t.contents = none ∨ t.attrsClass ≠ none) :
    (tagStep lst t).isSome = true := by
  rcases t with ⟨sL, sH, co, ac, nm⟩
  rcases co with _ | ⟨mL, mH⟩
  · simp [tagStep]
  · rcases ac with _ | cls
    · simp at h
    · simp [tagStep]

theorem foldlM_tag_total :
    ∀ (tags : List Tag) (lst : List (Option String)),
      (∀ t ∈ tags, t.contents = none ∨ t.attrsClass ≠ none) →
      (tags.foldlM tagStep lst).isSome = true := by
  intro tags
  induction tags with
  | nil => intro lst _; simp [List.foldlM_nil]
  | cons t ts ih =>
    intro lst hP
    simp only [List.foldlM_cons]
    have h1 := tagStep_isSome lst (hP t (List.mem_cons_self _ _))
    cases hstep : tagStep lst t with
    | none => rw [hstep] at h1; simp at h1
    | some lst1 =>
      simp only [hstep, Option.bind_eq_bind, Option.some_bind]
      exact ih lst1 (fun y hy => hP y (List.mem_cons_of_mem _ hy))


/-- C10: with `link` omitted (`none`) and `from_display = false`,
`discord_link` interpolates Python `None` literally, returning `[d](None)`;
the defaulting of the url to the page url applies only when `from_display`
is true. -/
theorem claim_C10 :
    (∀ d : String, discord_link d none false = "[" ++ d ++ "](None)") ∧
    (∀ d : String, discord_link d none true = "[" ++ d ++ "](" ++ wiki_link d ++ ")") := by
  refine ⟨fun d => ?_, fun d => rfl⟩
  show "[" ++ d ++ "](" ++ "None" ++ ")" = "[" ++ d ++ "](None)"
  rw [String.append_assoc ("[" ++ d ++ "](") "None" ")"]
  rw [String.append_assoc ("[" ++ d) "](" ("None" ++ ")")]
  congr 1

/-- C5 (counterexample): a write to the empty span `[0, 0)` on a
one-cell buffer inserts a new cell — the buffer grows to two cells and the
offset `0` outside the span changes, refuting the claim for
`begin = end`. -/
theorem claim_C5_counterexample :
    (replace [some "a"] 0 0 (some "x")).length ≠ ([some "a"] : List (Option String)).length ∧
    (replace [some "a"] 0 0 (some "x"))[0]? ≠ ([some "a"] : List (Option String))[0]? := by
  decide

/-- C5 (amended): for a non-empty span `begin < end` within the buffer, a
write sets the first offset to the replacement head (tombstone when the
replacement is `none`), every remaining offset of the span to a tombstone,
leaves offsets outside the span unchanged, and keeps one cell per
offset. -/
theorem claim_C5_amended (lst : List (Option String)) (b e : Nat) (r : Option String)
    (hbe : b < e) (hlen : e ≤ lst.length) :
    (replace lst b e r).length = lst.length ∧
    (replace lst b e r)[b]? = some r ∧
    (∀ i, b < i → i < e → (replace lst b e r)[i]? = some none) ∧
    (∀ i, i < b → (replace lst b e r)[i]? = lst[i]?) ∧
    (∀ i, e ≤ i → (replace lst b e r)[i]? = lst[i]?) :=
  ⟨length_replace r hbe hlen, replace_getElem?_head r hbe hlen,
    fun _ h1 h2 => replace_getElem?_mid r h1 h2 hlen,
    fun _ h => replace_getElem?_left r h (by omega),
    fun _ h => replace_getElem?_right r hbe h hlen⟩

/-- C5 witness: the amended statement applied to a concrete buffer. -/
theorem claim_C5_witness :
    (replace [some "a", some "b", some "c"] 0 2 (some "x")).length
      = ([some "a", some "b", some "c"] : List (Option String)).length :=
  (claim_C5_amended [some "a", some "b", some "c"] 0 2 (some "x")
    (by decide) (by decide)).1

/-- C1 (counterexample): on `<b>x</b>` — a non-self-closing tag with no
class attribute — `tag.attrs["class"]` raises `KeyError`, so the transcode
produces no output string. -/
theorem claim_C1_counterexample : parse_wiki_str prBPlain bPlainStr = none := by
  decide

/-- C1 (amended): the transcode returns some output string whenever every
non-self-closing tag construct carries a class attribute; no other
construct can make it raise. -/
theorem claim_C1_amended (pr : ParseResult) (s : String)
    (h : ∀ t ∈ pr.tags, t.contents = none ∨ t.attrsClass ≠ none) :
    (parse_wiki_str pr s).isSome = true := by
  have htot := foldlM_tag_total pr.tags (pr.emphases.foldl emphasisStep (initBuffer s)) h
  simp only [parse_wiki_str, parse_wiki_str_buf]
  cases hfold : pr.tags.foldlM tagStep (pr.emphases.foldl emphasisStep (initBuffer s)) with
  | none => rw [hfold] at htot; simp at htot
  | some lst2 => simp

/-- C1 witness: the amended totality applied to the mixed-nesting input. -/
theorem claim_C1_witness : (parse_wiki_str prMixed mixedStr).isSome = true :=
  claim_C1_amended prMixed mixedStr (by decide)

/-- C3: a template containing a nested template is skipped — the pass
returns the buffer unchanged — and on `{{outer|{{star}}}}` the output
keeps the outer delimiters verbatim around the mapped token of `star`. -/
theorem claim_C3 :
    (∀ (lst : List (Option String)) (tp : Template), tp.hasNested = true →
      templateStep lst tp = lst) ∧
    parse_wiki_str prOuter outerStr = some ("\x7b\x7bouter|" ++ "★" ++ "\x7d\x7d") := by
  refine ⟨?_, by decide⟩
  intro lst tp h
  simp [templateStep, h]

/-- C3 witness: the skip applied to the outer template of the example. -/
theorem claim_C3_witness :
    templateStep (initBuffer outerStr) ⟨0, 18, true, "outer"⟩ = initBuffer outerStr :=
  claim_C3.1 (initBuffer outerStr) ⟨0, 18, true, "outer"⟩ rfl

/-- C4 (counterexample): a self-closing tag carrying a class attribute is
looked up by its name (`br`, mapped to a newline), not by its class
(`inc`, mapped to `**`); and a non-self-closing tag without a class
attribute raises instead of falling back to the tag name. -/
theorem claim_C4_counterexample :
    tagStep (initBuffer brStr) ⟨0, 5, none, some "inc", "br"⟩
        = some (replace (initBuffer brStr) 0 5 (TAG_MAPPING "br")) ∧
    TAG_MAPPING "br" ≠ TAG_MAPPING "inc" ∧
    tagStep (initBuffer bPlainStr) ⟨0, 8, some (3, 4), none, "b"⟩ = none := by
  decide

/-- C4 (amended): the lookup identifier is the class attribute for
non-self-closing tags — raising when it is absent — and always the tag
name for self-closing tags; the written head cells carry the token from
that identifier. -/
theorem claim_C4_amended (lst : List (Option String)) (tag : Tag)
    (hwf : tagWF lst.length tag = true) :
    (tag.contents = none →
      tagStep lst tag = some (replace lst tag.spanL tag.spanH (TAG_MAPPING tag.name)) ∧
      (replace lst tag.spanL tag.spanH (TAG_MAPPING tag.name))[tag.spanL]?
        = some (TAG_MAPPING tag.name)) ∧
    (∀ mL mH, tag.contents = some (mL, mH) →
      (tag.attrsClass = none → tagStep lst tag = none) ∧
      (∀ cls, tag.attrsClass = some cls →
        tagStep lst tag = some (boundaryWrite lst tag.spanL (tag.spanL + mL)
          (tag.spanL + mH) tag.spanH (TAG_MAPPING cls)) ∧
        (boundaryWrite lst tag.spanL (tag.spanL + mL) (tag.spanL + mH) tag.spanH
          (TAG_MAPPING cls))[tag.spanL]? = some (TAG_MAPPING cls) ∧
        (boundaryWrite lst tag.spanL (tag.spanL + mL) (tag.spanL + mH) tag.spanH
          (TAG_MAPPING cls))[tag.spanL + mH]? = some (TAG_MAPPING cls))) := by
  rcases tag with ⟨sL, sH, co, ac, nm⟩
  refine ⟨?_, ?_⟩
  · intro hco
    simp only at hco
    subst hco
    simp only [tagWF, Bool.and_eq_true, decide_eq_true_eq] at hwf
    obtain ⟨h1, h2⟩ := hwf
    have h2' : sH ≤ lst.length := h2
    exact ⟨rfl, replace_getElem?_head _ h1 h2'⟩
  · intro mL mH hco
    simp only at hco
    subst hco
    simp only [tagWF, Bool.and_eq_true, decide_eq_true_eq] at hwf
    obtain ⟨⟨⟨h1, h2⟩, h3⟩, h4⟩ := hwf
    have h4' : sH ≤ lst.length := h4
    refine ⟨fun hac => ?_, fun cls hac => ?_⟩
    · simp only at hac
      subst hac
      rfl
    · simp only at hac
      subst hac
      have hbr := @boundaryWrite_spec lst (TAG_MAPPING cls) sL (sL + mL) (sL + mH) sH
        (by omega) (by omega) (by omega) (by omega)
      have hbr' : _ ∧ _ ∧ _ ∧ _ ∧ _ ∧ _ ∧ _ ∧ _ := hbr
      exact ⟨rfl, hbr'.2.1, hbr'.2.2.2.2.1⟩

/-- C4 witness: the amended identifier rule applied to the `br` tag. -/
theorem claim_C4_witness :
    tagStep (initBuffer brStr) ⟨0, 5, none, none, "br"⟩
      = some (replace (initBuffer brStr) 0 5 (TAG_MAPPING "br")) :=
  ((claim_C4_amended (initBuffer brStr) ⟨0, 5, none, none, "br"⟩ (by decide)).1 rfl).1


/-- Tombstoned cells vanish under compaction. -/
theorem filterMap_id_replicate_none (k : Nat) :
    (List.replicate k (none : Option String)).filterMap id = [] := by
  induction k with
  | zero => rfl
  | succ n ih => simp [List.replicate_succ, List.filterMap_cons, ih]

/-- A span fully tombstoned by a `none` write contributes the empty string
to the compacted output. -/
theorem replace_none_segment {lst : List (Option String)} {b e : Nat}
    (hbe : b < e) (hlen : e ≤ lst.length) :
    String.join ((((replace lst b e none).drop b).take (e - b)).filterMap id) = "" := by
  have ht : (lst.take b).length = b := by
    simp only [List.length_take]
    omega
  have hseg : (replace lst b e none).drop b
      = (none :: List.replicate (e - b - 1) none) ++ lst.drop (max b e) := by
    unfold replace
    rw [List.drop_left' ht]
  rw [hseg]
  have hm : (none :: List.replicate (e - b - 1) (none : Option String)).length = e - b := by
    simp only [List.length_cons, List.length_replicate]
    omega
  rw [List.take_left' hm]
  simp [List.filterMap_cons, filterMap_id_replicate_none, String.join]

/-- C2: an emphasis or (class-resolved) non-self-closing tag iteration
writes its mapped token over exactly the opening delimiter region and the
closing delimiter region, leaving the content span and everything outside
the outer span untouched; the documented examples transcode accordingly. -/
theorem claim_C2 :
    (∀ (lst : List (Option String)) (em : Emphasis), emWF lst.length em = true →
      BoundaryRewrites lst (emphasisStep lst em) em.spanL (em.spanL + em.matchL)
        (em.spanL + em.matchH) em.spanH (if em.isBold then some "**" else some "_")) ∧
    (∀ (lst : List (Option String)) (tag : Tag) (mL mH : Nat) (cls : String),
      tagWF lst.length tag = true → tag.contents = some (mL, mH) →
      tag.attrsClass = some cls →
      tagStep lst tag = some (boundaryWrite lst tag.spanL (tag.spanL + mL)
        (tag.spanL + mH) tag.spanH (TAG_MAPPING cls)) ∧
      BoundaryRewrites lst (boundaryWrite lst tag.spanL (tag.spanL + mL)
        (tag.spanL + mH) tag.spanH (TAG_MAPPING cls)) tag.spanL (tag.spanL + mL)
        (tag.spanL + mH) tag.spanH (TAG_MAPPING cls)) ∧
    parse_wiki_str prBold boldStr = some "**bold text**" ∧
    parse_wiki_str prMixed mixedStr = some "**_text_**" := by
  refine ⟨?_, ?_, by decide, by decide⟩
  · intro lst em hwf
    simp only [emWF, Bool.and_eq_true, decide_eq_true_eq] at hwf
    obtain ⟨⟨⟨h1, h2⟩, h3⟩, h4⟩ := hwf
    have heq : emphasisStep lst em = boundaryWrite lst em.spanL (em.spanL + em.matchL)
        (em.spanL + em.matchH) em.spanH (if em.isBold then some "**" else some "_") := rfl
    rw [heq]
    exact boundaryWrite_spec lst _ (by omega) (by omega) h3 h4
  · intro lst tag mL mH cls hwf hco hac
    rcases tag with ⟨sL, sH, co, ac, nm⟩
    simp only at hco hac
    subst hco
    subst hac
    dsimp only
    simp only [tagWF, Bool.and_eq_true, decide_eq_true_eq] at hwf
    obtain ⟨⟨⟨h1, h2⟩, h3⟩, h4⟩ := hwf
    have h4x : sH ≤ lst.length := h4
    have h3x : sL + mH < sH := h3
    exact ⟨rfl, boundaryWrite_spec lst (TAG_MAPPING cls)
      (by omega) (by omega) (by omega) (by omega)⟩

/-- C2 witness: the boundary rewrite applied to the bold example; the head
cell of the opening delimiter region carries the bold token. -/
theorem claim_C2_witness :
    (emphasisStep (initBuffer boldStr) ⟨0, 15, 3, 12, true⟩)[0]? = some (some "**") := by
  have h := claim_C2.1 (initBuffer boldStr) ⟨0, 15, 3, 12, true⟩ (by decide)
  have hx : _ ∧ _ ∧ _ ∧ _ ∧ _ ∧ _ ∧ _ ∧ _ := h
  exact hx.2.1

/-- C7: an unmapped identifier acts as delete: an unmapped self-closing
tag is written as a `none` head over its whole span, an unmapped class on
a non-self-closing tag writes `none` tokens over both delimiter regions,
an unmapped non-nested template is written as a `none` head over its whole
span; a `none` write tombstones every offset of its span, none of these
raises, and the compacted output of the affected regions is empty rather
than the identifier text. -/
theorem claim_C7 :
    (∀ (lst : List (Option String)) (tag : Tag), tag.contents = none →
      TAG_MAPPING tag.name = none →
      tagStep lst tag = some (replace lst tag.spanL tag.spanH none)) ∧
    (∀ (lst : List (Option String)) (tag : Tag) (mL mH : Nat) (cls : String),
      tag.contents = some (mL, mH) → tag.attrsClass = some cls →
      TAG_MAPPING cls = none →
      tagStep lst tag = some (boundaryWrite lst tag.spanL (tag.spanL + mL)
        (tag.spanL + mH) tag.spanH none)) ∧
    (∀ (lst : List (Option String)) (tp : Template), tp.hasNested = false →
      TEMPLATE_MAPPING tp.name = none →
      templateStep lst tp = replace lst tp.spanL tp.spanH none) ∧
    (∀ (lst : List (Option String)) (b e i : Nat), b ≤ i → i < e → e ≤ lst.length →
      (replace lst b e none)[i]? = some none) ∧
    parse_wiki_str prSpanUnk spanUnkStr = some "text" ∧
    parse_wiki_str prHr hrStr = some "" := by
  refine ⟨?_, ?_, ?_, ?_, by decide, by decide⟩
  · intro lst tag hco hmap
    simp only [tagStep, hco, hmap]
  · intro lst tag mL mH cls hco hac hmap
    simp only [tagStep, hco, hac, hmap, boundaryWrite]
  · intro lst tp h hmap
    simp only [templateStep, h, hmap, Bool.false_eq_true, if_false]
  · intro lst b e i hbi hie hlen
    rcases Nat.eq_or_lt_of_le hbi with heq | hlt
    · subst heq
      exact replace_getElem?_head none (by omega) hlen
    · exact replace_getElem?_mid none hlt hie hlen

/-- C7 witness: the tombstone write applied to the unmapped self-closing
tag example. -/
theorem claim_C7_witness :
    (replace (initBuffer hrStr) 0 5 none)[2]? = some none :=
  claim_C7.2.2.2.1 (initBuffer hrStr) 0 5 2 (by decide) (by decide) (by decide)

/-- C8: a link with no display text and no nested link is replaced across
its whole span by the hyperlink built from its target; the hyperlink is
`[target](url)` with the url the fixed base address followed by the
urlified (underscored, percent-encoded) target; `[[Kiana]]` transcodes
accordingly. -/
theorem claim_C8 :
    (∀ (lst : List (Option String)) (wl : Wikilink), wl.hasNested = false →
      wl.textSpan = none →
      linkStep lst wl = replace lst wl.spanL wl.spanH
        (some (discord_link wl.target none true))) ∧
    (∀ d : String, discord_link d none true = "[" ++ d ++ "](" ++ wiki_link d ++ ")") ∧
    (∀ nm : String, wiki_link nm = WIKI_BASE ++ urlify nm) ∧
    parse_wiki_str prKiana kianaStr = some "[Kiana](<base>/Kiana)" := by
  refine ⟨?_, fun d => rfl, fun nm => rfl, by decide⟩
  intro lst wl h1 h2
  simp only [linkStep, h1, h2, Bool.false_eq_true, if_false]

/-- C8 witness: the full-span hyperlink write applied to the `[[Kiana]]`
example. -/
theorem claim_C8_witness :
    linkStep (initBuffer kianaStr) ⟨0, 9, false, none, "Kiana"⟩
      = replace (initBuffer kianaStr) 0 9 (some (discord_link "Kiana" none true)) :=
  claim_C8.1 (initBuffer kianaStr) ⟨0, 9, false, none, "Kiana"⟩ rfl rfl

/-- C9 (counterexample): a mapped self-closing tag does not collapse to
the empty string (`<br/>` yields a newline), and an unmapped template
containing a nested template does not collapse either (its delimiters
survive around the rewritten inner template). -/
theorem claim_C9_counterexample :
    parse_wiki_str prBr brStr = some "\n" ∧ (some "\n" : Option String) ≠ some "" ∧
    parse_wiki_str prNestedUnmapped nestedUnmappedStr
      = some ("\x7b\x7bu|" ++ "★" ++ "\x7d\x7d") ∧
    ("\x7b\x7bu|" ++ "★" ++ "\x7d\x7d" : String) ≠ "" := by
  decide

/-- C9 (amended): a self-closing tag whose name is unmapped, and a
template whose identifier is unmapped and which contains no nested
template, collapse to the empty string: their whole span compacts to
nothing, as the concrete examples show at output level. -/
theorem claim_C9_amended :
    parse_wiki_str prHr hrStr = some "" ∧
    parse_wiki_str prUnmapped unmappedStr = some "" ∧
    (∀ (lst : List (Option String)) (tp : Template), tmplWF lst.length tp = true →
      tp.hasNested = false → TEMPLATE_MAPPING tp.name = none →
      String.join ((((templateStep lst tp).drop tp.spanL).take
        (tp.spanH - tp.spanL)).filterMap id) = "") ∧
    (∀ (lst : List (Option String)) (tag : Tag) (out : List (Option String)),
      tagWF lst.length tag = true → tag.contents = none →
      TAG_MAPPING tag.name = none → tagStep lst tag = some out →
      String.join (((out.drop tag.spanL).take
        (tag.spanH - tag.spanL)).filterMap id) = "") := by
  refine ⟨by decide, by decide, ?_, ?_⟩
  · intro lst tp hwf h hmap
    simp only [templateStep, h, hmap, Bool.false_eq_true, if_false]
    simp only [tmplWF, h, Bool.false_or, Bool.and_eq_true, decide_eq_true_eq] at hwf
    exact replace_none_segment hwf.1 hwf.2
  · intro lst tag out hwf hco hmap hstep
    simp only [tagStep, hco, hmap, Option.some_inj] at hstep
    subst hstep
    simp only [tagWF, hco, Bool.and_eq_true, decide_eq_true_eq] at hwf
    exact replace_none_segment hwf.1 hwf.2

/-- C9 witness: the amended collapse applied to the `{{unmapped}}`
template example. -/
theorem claim_C9_witness :
    String.join ((((templateStep (initBuffer unmappedStr)
      ⟨0, 12, false, "unmapped"⟩).drop 0).take 12).filterMap id) = "" :=
  claim_C9_amended.2.2.1 (initBuffer unmappedStr) ⟨0, 12, false, "unmapped"⟩
    (by decide) rfl rfl

/-- C6: whenever the transcode completes, its output is the in-order
compaction of a buffer with one cell per original character offset, in
which every cell still holds the original character of its offset, or a
tombstone, or one of the pass-written replacement tokens — so original
characters only ever appear at their own offset, in ascending order. -/
theorem claim_C6 (pr : ParseResult) (s : String) (cells : List (Option String))
    (hwf : prWF pr s.data.length = true)
    (hbuf : parse_wiki_str_buf pr s = some cells) :
    parse_wiki_str pr s = some (String.join (cells.filterMap id)) ∧
    cells.length = s.data.length ∧
    (∀ i c, cells[i]? = some c →
      c = origCell s.data i ∨ c = none ∨ c ∈ writtenTokens pr) := by
  have h1 : parse_wiki_str pr s = some (String.join (cells.filterMap id)) := by
    simp only [parse_wiki_str, hbuf]
  simp only [prWF, Bool.and_eq_true, List.all_eq_true] at hwf
  obtain ⟨⟨⟨hem, htag⟩, hlink⟩, htmpl⟩ := hwf
  have hinit := initBuffer_BufOk s (writtenTokens pr)
  have hem2 : BufOk s.data (writtenTokens pr)
      (pr.emphases.foldl emphasisStep (initBuffer s)) :=
    foldl_BufOk emphasisStep
      (fun em => emWF s.data.length em = true ∧ emTok em ∈ writtenTokens pr)
      (fun lst x hx h => emphasisStep_BufOk h hx.1 hx.2)
      pr.emphases (initBuffer s)
      (fun x hx => ⟨hem x hx, List.mem_append_left _ (List.mem_append_left _
        (List.mem_append_left _ (List.mem_map_of_mem _ hx)))⟩)
      hinit
  cases hfold : pr.tags.foldlM tagStep (pr.emphases.foldl emphasisStep (initBuffer s)) with
  | none =>
    simp only [parse_wiki_str_buf, hfold] at hbuf
    exact Option.noConfusion hbuf
  | some lst2 =>
    have hcells : cells = pr.templates.foldl templateStep
        (pr.wikilinks.foldl linkStep lst2) := by
      simp only [parse_wiki_str_buf, hfold, Option.some_inj] at hbuf
      exact hbuf.symm
    have htag2 : BufOk s.data (writtenTokens pr) lst2 :=
      foldlM_tag_BufOk pr.tags _ lst2
        (fun t ht => ⟨htag t ht, List.mem_append_left _ (List.mem_append_left _
          (List.mem_append_right _ (List.mem_map_of_mem _ ht)))⟩)
        hem2 hfold
    have hlink2 : BufOk s.data (writtenTokens pr)
        (pr.wikilinks.foldl linkStep lst2) :=
      foldl_BufOk linkStep
        (fun wl => linkWF s.data.length wl = true ∧ linkTok wl ∈ writtenTokens pr)
        (fun lst x hx h => linkStep_BufOk h hx.1 hx.2)
        pr.wikilinks lst2
        (fun x hx => ⟨hlink x hx, List.mem_append_left _ (List.mem_append_right _
          (List.mem_map_of_mem _ hx))⟩)
        htag2
    have htmpl2 : BufOk s.data (writtenTokens pr)
        (pr.templates.foldl templateStep (pr.wikilinks.foldl linkStep lst2)) :=
      foldl_BufOk templateStep
        (fun tp => tmplWF s.data.length tp = true ∧ tmplTok tp ∈ writtenTokens pr)
        (fun lst x hx h => templateStep_BufOk h hx.1 hx.2)
        pr.templates _
        (fun x hx => ⟨htmpl x hx, List.mem_append_right _ (List.mem_map_of_mem _ hx)⟩)
        hlink2
    rw [hcells]
    exact ⟨by rw [← hcells]; exact h1, htmpl2.1, htmpl2.2⟩

/-- C6 witness: the order invariant applied to the `{{star}}` example,
whose final buffer is the star token head followed by tombstones. -/
theorem claim_C6_witness :
    parse_wiki_str prStar starStr = some (String.join
      (([some "★", none, none, none, none, none, none, none] :
        List (Option String)).filterMap id)) :=
  (claim_C6 prStar starStr [some "★", none, none, none, none, none, none, none]
    (by decide) (by decide)).1


end Display
